import Mathlib

/-
Verification of the Coulomb wave-function engine (meta_numerics) of MARLEY.

Shallow embedding: C++ doubles are idealized as real numbers; machine
integers as Int/Nat; throwing functions return Except values.  The repository
ships only the header meta_numerics.hh under src/; every definition below that
embeds a function whose body lives in the missing translation unit
(meta_numerics.cc) carries a doc comment beginning with the words
Modelled from the spec, and records which spec sentences it follows.
-/

/-- Error kinds of the engine: domain-validation errors (negative L or ρ,
bad accuracy value) and convergence failures, as thrown via
std::runtime_error in the source. -/
inductive MNError where
  | domainError : MNError
  | invalidAccuracy : MNError
  | convergenceFailure : MNError
deriving DecidableEq, Repr

/-- Source, meta_numerics.hh line 41: maximum number of iterations of a
series. -/
def SeriesMax : ℕ := 250

/-- Source, meta_numerics.hh line 45: MaxAccuracy = std::pow(2.0, -49). -/
noncomputable def MaxAccuracy : ℝ := (2 : ℝ) ^ (-49 : ℤ)

/-- Source, meta_numerics.hh lines 33-38: the table of even Bernoulli
numbers, a process-wide immutable constant (the listed values are exact
rationals, recorded here exactly). -/
def Bernoulli : List ℚ :=
  [1, 1/6, -1/30, 1/42, -1/30, 5/66, -691/2730, 7/6,
   -3617/510, 43867/798, -174611/330, 854513/138,
   -236364091/2730, 8553103/6, -23749461029/870,
   8615841276005/14322]

/-- Source, meta_numerics.hh lines 58-109: the ODE stepper state — current
independent variable X, dependent variable Y, step size DeltaX, target
accuracy, evaluation count, and the caller-supplied right-hand side. -/
structure OdeStepper where
  X : ℝ
  Y : ℝ
  DeltaX : ℝ
  accuracy : ℝ
  count : ℤ
  RightHandSide : ℝ → ℝ → ℝ

/-- Source, meta_numerics.hh lines 76-78: EvaluationCount returns the
running count field. -/
def EvaluationCount (s : OdeStepper) : ℤ := s.count

/-- Source, meta_numerics.hh lines 85-90: set_accuracy throws when
value < MaxAccuracy or value >= 1, and otherwise stores the value in the
accuracy field. -/
noncomputable def set_accuracy (s : OdeStepper) (value : ℝ) :
    Except MNError OdeStepper :=
  if value < MaxAccuracy ∨ 1 ≤ value then Except.error MNError.invalidAccuracy
  else Except.ok { s with accuracy := value }

/-- Source, meta_numerics.hh lines 105-108: Evaluate increments the count
field by one and applies the right-hand side at (x, y). -/
def Evaluate (s : OdeStepper) (x y : ℝ) : OdeStepper × ℝ :=
  ({ s with count := s.count + 1 }, s.RightHandSide x y)

/-- Modelled from the spec: during one Integrate call every right-hand-side
evaluation goes through Evaluate (the body of Integrate is in the missing
meta_numerics.cc); this function runs such a sequence of evaluations at the
given list of points, threading the stepper state and collecting results. -/
def evalSteps (s : OdeStepper) : List (ℝ × ℝ) → OdeStepper × List ℝ
  | [] => (s, [])
  | (x, y) :: rest =>
      let e := Evaluate s x y
      let r := evalSteps e.1 rest
      (r.1, e.2 :: r.2)

/-- Source, meta_numerics.hh lines 240-317: a pair of solutions of a second
order linear ODE, holding value and derivative of the first (regular)
solution and of the second (irregular) solution. -/
structure SolutionPair where
  j : ℝ
  jPrime : ℝ
  y : ℝ
  yPrime : ℝ

/-- Source getter: value of the first solution. -/
def FirstSolutionValue (p : SolutionPair) : ℝ := p.j

/-- Source setter (the C++ class overloads the getter name with a
one-argument mutator): overwrite the value of the first solution. -/
def FirstSolutionValue_set (p : SolutionPair) (value : ℝ) : SolutionPair :=
  { p with j := value }

/-- Source getter: derivative of the first solution. -/
def FirstSolutionDerivative (p : SolutionPair) : ℝ := p.jPrime

/-- Source setter: overwrite the derivative of the first solution. -/
def FirstSolutionDerivative_set (p : SolutionPair) (value : ℝ) : SolutionPair :=
  { p with jPrime := value }

/-- Source getter: value of the second solution. -/
def SecondSolutionValue (p : SolutionPair) : ℝ := p.y

/-- Source setter: overwrite the value of the second solution. -/
def SecondSolutionValue_set (p : SolutionPair) (value : ℝ) : SolutionPair :=
  { p with y := value }

/-- Source getter: derivative of the second solution. -/
def SecondSolutionDerivative (p : SolutionPair) : ℝ := p.yPrime

/-- Source setter: overwrite the derivative of the second solution. -/
def SecondSolutionDerivative_set (p : SolutionPair) (value : ℝ) : SolutionPair :=
  { p with yPrime := value }

/-- Source, meta_numerics.hh lines 292-306 (and spec section 3): the Wronskian of a
solution pair is the product of the first solution value and the second
solution derivative minus the product of the second solution value and the
first solution derivative. -/
def Wronskian (p : SolutionPair) : ℝ :=
  FirstSolutionValue p * SecondSolutionDerivative p -
    SecondSolutionValue p * FirstSolutionDerivative p

/-- Modelled from the spec (section 4.3): the classical turning point, the solution
of the classical radial-momentum-zero condition 1 - 2η/ρ - L(L+1)/ρ² = 0,
namely ρ_t = η + sqrt(η² + L(L+1)). -/
noncomputable def CoulombTurningPoint (L eta : ℝ) : ℝ :=
  eta + Real.sqrt (eta ^ 2 + L * (L + 1))

/-- Modelled from the spec (section 4.4): the algebraic core of the Steed method.
Given the CF1 value f = F′/F together with the sign s of F, and the CF2
value p + iq = (G′+iF′)/(G+iF), solve the four-constraint system
F′ = f·F, G′ = p·G - q·F, F′ = q·G + p·F, and the Wronskian normalization
for all of F, F′, G, G′.  The continued-fraction evaluations themselves live
in the missing translation unit, so the solver takes their values as
arguments. -/
noncomputable def Coulomb_Steed_solve (f p q s : ℝ) : SolutionPair :=
  let g := (f - p) / q
  let F := s / Real.sqrt (g ^ 2 * q + q)
  ⟨F, f * F, g * F, (p * g - q) * F⟩

/-- Modelled from the spec (section 4.3): the Gamow factor C_L(η), the
Gamma-function ratio setting the magnitude scale of F near the origin,
C_L(η) = 2^L e^(-πη/2) |Γ(L+1+iη)| / (2L+1)!. -/
noncomputable def CoulombFactor (L : ℕ) (eta : ℝ) : ℝ :=
  2 ^ L * Real.exp (-(Real.pi * eta) / 2) *
    Complex.abs (Complex.Gamma ((L : ℂ) + 1 + eta * Complex.I)) /
      (Nat.factorial (2 * L + 1) : ℝ)

/-- Modelled from the spec (section 4.3) and the comment at
meta_numerics.hh lines 330-332: coefficients of the power series for F.
Writing F = C_L(η) ρ^(L+1) Σ_k b_k ρ^k, successive terms mix the factors
ρ²/(L+1)-type and 2ηρ/(L+1)-type named by the spec:
b_0 = 1, b_1 = η/(L+1), and
b_(k+2) = (2η b_(k+1) - b_k) / ((k+2)(2L+k+3)). -/
noncomputable def CoulombF_SeriesCoeff (L : ℕ) (eta : ℝ) : ℕ → ℝ
  | 0 => 1
  | 1 => eta / ((L : ℝ) + 1)
  | (k + 2) =>
      (2 * eta * CoulombF_SeriesCoeff L eta (k + 1) -
        CoulombF_SeriesCoeff L eta k) /
          (((k : ℝ) + 2) * (2 * (L : ℝ) + (k : ℝ) + 3))

/-- Modelled from the spec (section 4.3): the value computed by the power
series regime for F, the limit of the partial sums of CoulombF_Series; in
the exact-arithmetic idealization this series converges to F_L(η,ρ) for
every ρ, and every regime of the dispatch computes the same value. -/
noncomputable def CoulombF_Series (L : ℕ) (eta rho : ℝ) : ℝ :=
  CoulombFactor L eta * rho ^ (L + 1) *
    tsum (fun k : ℕ => CoulombF_SeriesCoeff L eta k * rho ^ k)

/-- Modelled from the spec (section 4.3): coefficients of the L = 0 power
series for the irregular solution G computed by Coulomb_Zero_Series
(declared at meta_numerics.hh line 337), with the same recurring factors as
the F series: d_0 = 1, d_1 = 0,
d_(n+2) = (2η d_(n+1) - d_n) / ((n+2)(n+1)).  (The η-dependent logarithmic
correction to G is omitted; the model is exact at η = 0, the only charge at
which the properties below evaluate it.) -/
noncomputable def Coulomb_Zero_SeriesCoeffG (eta : ℝ) : ℕ → ℝ
  | 0 => 1
  | 1 => 0
  | (n + 2) =>
      (2 * eta * Coulomb_Zero_SeriesCoeffG eta (n + 1) -
        Coulomb_Zero_SeriesCoeffG eta n) / (((n : ℝ) + 2) * ((n : ℝ) + 1))

/-- Modelled from the spec (section 4.3): the L = 0 series value of G. -/
noncomputable def Coulomb_Zero_Series_G (eta rho : ℝ) : ℝ :=
  tsum (fun n : ℕ => Coulomb_Zero_SeriesCoeffG eta n * rho ^ n)

/-- Modelled from the spec (section 4.3): the termwise derivative of the
L = 0 series of G, used to seed the upward recursion. -/
noncomputable def Coulomb_Zero_Series_GP (eta rho : ℝ) : ℝ :=
  tsum (fun n : ℕ => ((n : ℝ) + 1) * Coulomb_Zero_SeriesCoeffG eta (n + 1) * rho ^ n)

/-- Modelled from the spec (section 4.6): upward three-term recursion
(declared as Coulomb_Recurse_Upward at meta_numerics.hh line 356)
propagating the value-derivative pair of G from L = 0 to the target L,
using the standard Coulomb recurrence coefficients
R_L = sqrt(1 + (η/L)²) and S_L = L/ρ + η/L. -/
noncomputable def Coulomb_Recurse_Upward (eta rho : ℝ) : ℕ → ℝ × ℝ
  | 0 => (Coulomb_Zero_Series_G eta rho, Coulomb_Zero_Series_GP eta rho)
  | (L + 1) =>
      let prev := Coulomb_Recurse_Upward eta rho L
      let lam : ℝ := (L : ℝ) + 1
      let R := Real.sqrt (1 + (eta / lam) ^ 2)
      let S := lam / rho + eta / lam
      let next := (S * prev.1 - prev.2) / R
      (next, R * prev.1 - S * next)

/-- Modelled from the spec (section 4.7): the value returned by the G
dispatch on valid arguments — the L = 0 series result propagated upward by
the stable recursion. -/
noncomputable def CoulombG_val (L : ℕ) (eta rho : ℝ) : ℝ :=
  (Coulomb_Recurse_Upward eta rho L).1

/-- Modelled from the spec (sections 4.7 and 6): the top-level dispatch
shared by CoulombF and CoulombG: validate L ≥ 0 and ρ ≥ 0, raising a domain
error otherwise, and on valid arguments return the value computed by the
selected regime. -/
noncomputable def coulombDispatch (value : ℕ → ℝ → ℝ → ℝ) (L : ℤ)
    (eta rho : ℝ) : Except MNError ℝ :=
  if L < 0 ∨ rho < 0 then Except.error MNError.domainError
  else Except.ok (value L.toNat eta rho)

/-- Modelled from the spec (sections 4.7 and 6): the regular Coulomb wave
function entry point, declared at meta_numerics.hh line 385. -/
noncomputable def CoulombF (L : ℤ) (eta rho : ℝ) : Except MNError ℝ :=
  coulombDispatch CoulombF_Series L eta rho

/-- Modelled from the spec (sections 4.7 and 6): the irregular Coulomb wave
function entry point, declared at meta_numerics.hh line 401. -/
noncomputable def CoulombG (L : ℤ) (eta rho : ℝ) : Except MNError ℝ :=
  coulombDispatch CoulombG_val L eta rho

/-- Modelled from the spec (sections 3 and 7): the shape shared by every
iterative primitive of the engine — run up to the given iteration budget,
return the current value as soon as the accuracy test passes, and report an
explicit convergence failure if the budget is exhausted first. -/
def iteratePrimitive {σ : Type} (step : σ → σ) (accuracyReached : σ → Bool)
    (value : σ → ℝ) : ℕ → σ → Except MNError ℝ
  | 0, _ => Except.error MNError.convergenceFailure
  | (n + 1), s =>
      if accuracyReached s then Except.ok (value s)
      else iteratePrimitive step accuracyReached value n (step s)

/-- Modelled from the spec (section 5 and section 3, Lifecycle): a top-level
call observed together with the process-wide shared data, which consist
only of the immutable constant coefficient tables; the call reads the
tables and returns them unchanged alongside its result. -/
noncomputable def CoulombF_call (tables : List ℚ) (L : ℤ) (eta rho : ℝ) :
    List ℚ × Except MNError ℝ :=
  (tables, CoulombF L eta rho)

/-- Modelled from the spec (section 5 and section 3, Lifecycle): the same
observation for the irregular entry point. -/
noncomputable def CoulombG_call (tables : List ℚ) (L : ℤ) (eta rho : ℝ) :
    List ℚ × Except MNError ℝ :=
  (tables, CoulombG L eta rho)

/- ------------------------------------------------------------------ -/
/- Theorems                                                           -/
/- ------------------------------------------------------------------ -/

/-- C8 counterexample: a SolutionPair constructed as (0,0,0,0) has its
first solution value changed to 1 by the public setter, so the public
interface does mutate the stored fields. -/
theorem SolutionPair_setter_mutates :
    FirstSolutionValue (FirstSolutionValue_set (SolutionPair.mk 0 0 0 0) 1) ≠
      FirstSolutionValue (SolutionPair.mk 0 0 0 0) := by
  simp [FirstSolutionValue, FirstSolutionValue_set]

/-- C8 (amended): a SolutionPair stores the four doubles given at
construction, the getters mutate nothing, and the public interface includes
four setters, each of which overwrites exactly its own field and leaves the
other three unchanged; apart from those setters no public operation changes
a field. -/
theorem SolutionPair_field_frame (a b c d : ℝ) (p : SolutionPair) (v : ℝ) :
    (SolutionPair.mk a b c d).j = a ∧ (SolutionPair.mk a b c d).jPrime = b ∧
    (SolutionPair.mk a b c d).y = c ∧ (SolutionPair.mk a b c d).yPrime = d ∧
    FirstSolutionValue p = p.j ∧ FirstSolutionDerivative p = p.jPrime ∧
    SecondSolutionValue p = p.y ∧ SecondSolutionDerivative p = p.yPrime ∧
    (FirstSolutionValue_set p v).j = v ∧
    (FirstSolutionValue_set p v).jPrime = p.jPrime ∧
    (FirstSolutionValue_set p v).y = p.y ∧
    (FirstSolutionValue_set p v).yPrime = p.yPrime ∧
    (FirstSolutionDerivative_set p v).j = p.j ∧
    (FirstSolutionDerivative_set p v).jPrime = v ∧
    (FirstSolutionDerivative_set p v).y = p.y ∧
    (FirstSolutionDerivative_set p v).yPrime = p.yPrime ∧
    (SecondSolutionValue_set p v).j = p.j ∧
    (SecondSolutionValue_set p v).jPrime = p.jPrime ∧
    (SecondSolutionValue_set p v).y = v ∧
    (SecondSolutionValue_set p v).yPrime = p.yPrime ∧
    (SecondSolutionDerivative_set p v).j = p.j ∧
    (SecondSolutionDerivative_set p v).jPrime = p.jPrime ∧
    (SecondSolutionDerivative_set p v).y = p.y ∧
    (SecondSolutionDerivative_set p v).yPrime = v :=
  ⟨rfl, rfl, rfl, rfl, rfl, rfl, rfl, rfl, rfl, rfl, rfl, rfl,
   rfl, rfl, rfl, rfl, rfl, rfl, rfl, rfl, rfl, rfl, rfl, rfl⟩

/-- C9: the entry points are pure and deterministic — a top-level call
leaves the process-wide constant tables unchanged, and two calls with the
same arguments return the same result regardless of the table state they
observe. -/
theorem Coulomb_calls_pure (t u : List ℚ) (L : ℤ) (eta rho : ℝ) :
    (CoulombF_call t L eta rho).1 = t ∧
    (CoulombG_call t L eta rho).1 = t ∧
    (CoulombF_call t L eta rho).2 = (CoulombF_call u L eta rho).2 ∧
    (CoulombG_call t L eta rho).2 = (CoulombG_call u L eta rho).2 ∧
    (CoulombF_call t L eta rho).2 = CoulombF L eta rho ∧
    (CoulombG_call t L eta rho).2 = CoulombG L eta rho :=
  ⟨rfl, rfl, rfl, rfl, rfl, rfl⟩

/-- C10: every right-hand-side evaluation goes through Evaluate, which
increments the counter by exactly one; consequently, after any sequence of
evaluations performed by an Integrate call (and hence at any point during
it, taking a prefix of the sequence), EvaluationCount has grown by exactly
the number of right-hand-side invocations performed. -/
theorem EvaluationCount_counts_rhs_calls (s : OdeStepper) (pts : List (ℝ × ℝ)) :
    EvaluationCount (evalSteps s pts).1 =
      EvaluationCount s + (pts.length : ℤ) ∧
    (evalSteps s pts).2.length = pts.length ∧
    ∀ x y, EvaluationCount (Evaluate s x y).1 = EvaluationCount s + 1 := by
  refine ⟨?_, ?_, fun x y => rfl⟩
  · induction pts generalizing s with
    | nil => simp [evalSteps]
    | cons hd tl ih =>
        obtain ⟨x, y⟩ := hd
        have := ih ({ s with count := s.count + 1 })
        simp only [evalSteps, Evaluate, List.length_cons] at this ⊢
        rw [this]
        simp [EvaluationCount]
        omega
  · induction pts generalizing s with
    | nil => rfl
    | cons hd tl ih =>
        obtain ⟨x, y⟩ := hd
        simp only [evalSteps, List.length_cons]
        rw [ih]

/-- C2: both entry points fail with a domain error, returning no value,
whenever L < 0 or ρ < 0. -/
theorem Coulomb_domain_error (L : ℤ) (eta rho : ℝ) (h : L < 0 ∨ rho < 0) :
    CoulombF L eta rho = Except.error MNError.domainError ∧
    CoulombG L eta rho = Except.error MNError.domainError := by
  constructor
  · unfold CoulombF coulombDispatch
    rw [if_pos h]
  · unfold CoulombG coulombDispatch
    rw [if_pos h]

/-- C2 witness: the two instances named by the spec, CoulombF(-1, 0, 1)
(negative L) and CoulombF(0, 0, -1) (negative ρ), together with CoulombG at
the same arguments, all fail with the domain error. -/
theorem Coulomb_domain_error_witness :
    (((-1 : ℤ) < 0 ∨ (1 : ℝ) < 0) ∧
      CoulombF (-1) 0 1 = Except.error MNError.domainError ∧
      CoulombG (-1) 0 1 = Except.error MNError.domainError) ∧
    (((0 : ℤ) < 0 ∨ (-1 : ℝ) < 0) ∧
      CoulombF 0 0 (-1) = Except.error MNError.domainError ∧
      CoulombG 0 0 (-1) = Except.error MNError.domainError) :=
  ⟨⟨Or.inl (by norm_num), Coulomb_domain_error (-1) 0 1 (Or.inl (by norm_num))⟩,
   ⟨Or.inr (by norm_num), Coulomb_domain_error 0 0 (-1) (Or.inr (by norm_num))⟩⟩

theorem MaxAccuracy_lt_one : MaxAccuracy < 1 := by
  unfold MaxAccuracy
  norm_num

theorem MaxAccuracy_le_half : MaxAccuracy ≤ 1 / 2 := by
  unfold MaxAccuracy
  norm_num

/-- C7 counterexample: the boundary value 2^(-49) itself lies outside the
open interval (2^(-49), 1), yet set_accuracy accepts it and stores it
rather than raising the domain-validation error, because the code rejects
only values strictly below 2^(-49) (or at least 1). -/
theorem set_accuracy_boundary_accepted :
    ¬ (MaxAccuracy < MaxAccuracy ∧ MaxAccuracy < 1) ∧
    set_accuracy (OdeStepper.mk 0 0 0 (1/2) 0 (fun _ _ => 0)) MaxAccuracy =
      Except.ok (OdeStepper.mk 0 0 0 MaxAccuracy 0 (fun _ _ => 0)) := by
  constructor
  · intro h
    exact absurd h.1 (lt_irrefl _)
  · unfold set_accuracy
    rw [if_neg]
    push_neg
    exact ⟨le_refl _, MaxAccuracy_lt_one⟩

/-- C7 (amended): setting the accuracy configuration value raises the
domain-validation error exactly when the value lies outside the half-open
interval from 2^(-49) inclusive to 1 exclusive; for every value inside that
half-open interval the accuracy field is set to the value and no error is
raised. -/
theorem set_accuracy_domain (s : OdeStepper) (value : ℝ) :
    (set_accuracy s value = Except.error MNError.invalidAccuracy ↔
      value < MaxAccuracy ∨ 1 ≤ value) ∧
    (MaxAccuracy ≤ value → value < 1 →
      set_accuracy s value = Except.ok { s with accuracy := value }) := by
  constructor
  · unfold set_accuracy
    split_ifs with h
    · simpa using h
    · simpa using h
  · intro h1 h2
    unfold set_accuracy
    rw [if_neg]
    push_neg
    exact ⟨h1, h2⟩

/-- C7 witness: the value 1/2 lies in the half-open interval, and
set_accuracy stores it without error. -/
theorem set_accuracy_domain_witness :
    (MaxAccuracy ≤ (1/2 : ℝ) ∧ (1/2 : ℝ) < 1) ∧
    set_accuracy (OdeStepper.mk 1 2 3 (1/4) 7 (fun x _ => x)) (1/2) =
      Except.ok (OdeStepper.mk 1 2 3 (1/2) 7 (fun x _ => x)) :=
  ⟨⟨MaxAccuracy_le_half, by norm_num⟩,
   (set_accuracy_domain (OdeStepper.mk 1 2 3 (1/4) 7 (fun x _ => x)) (1/2)).2
     MaxAccuracy_le_half (by norm_num)⟩

theorem iteratePrimitive_spec {σ : Type} (step : σ → σ) (acc : σ → Bool)
    (value : σ → ℝ) :
    ∀ (n : ℕ) (s : σ),
      (iteratePrimitive step acc value n s =
          Except.error MNError.convergenceFailure ↔
        ∀ k, k < n → acc (step^[k] s) = false) ∧
      ∀ v, iteratePrimitive step acc value n s = Except.ok v →
        ∃ k, k < n ∧ acc (step^[k] s) = true ∧ v = value (step^[k] s)
  | 0, s => by
      constructor
      · simp [iteratePrimitive]
      · intro v hv
        simp [iteratePrimitive] at hv
  | (n + 1), s => by
      have IH := iteratePrimitive_spec step acc value n (step s)
      by_cases h : acc s = true
      · have hrun : iteratePrimitive step acc value (n + 1) s =
            Except.ok (value s) := by
          simp [iteratePrimitive, h]
        constructor
        · rw [hrun]
          constructor
          · intro hc
            exact absurd hc (by simp)
          · intro hall
            have h0 := hall 0 (Nat.succ_pos n)
            rw [Function.iterate_zero_apply] at h0
            rw [h] at h0
            exact absurd h0 (by simp)
        · intro v hv
          rw [hrun] at hv
          refine ⟨0, Nat.succ_pos n, ?_, ?_⟩
          · rw [Function.iterate_zero_apply]
            exact h
          · rw [Function.iterate_zero_apply]
            exact (Except.ok.inj hv).symm
      · have hrun : iteratePrimitive step acc value (n + 1) s =
            iteratePrimitive step acc value n (step s) := by
          simp [iteratePrimitive, h]
        constructor
        · rw [hrun, IH.1]
          constructor
          · intro hall k hk
            cases k with
            | zero =>
                rw [Function.iterate_zero_apply]
                exact Bool.not_eq_true _ ▸ Bool.eq_false_iff.mpr h
            | succ j =>
                rw [Function.iterate_succ_apply]
                exact hall j (Nat.lt_of_succ_lt_succ hk)
          · intro hall k hk
            have := hall (k + 1) (Nat.succ_lt_succ hk)
            rw [Function.iterate_succ_apply] at this
            exact this
        · intro v hv
          rw [hrun] at hv
          obtain ⟨k, hk, hacc, hval⟩ := IH.2 v hv
          refine ⟨k + 1, Nat.succ_lt_succ hk, ?_, ?_⟩
          · rw [Function.iterate_succ_apply]
            exact hacc
          · rw [Function.iterate_succ_apply]
            exact hval

/-- C6: an iterative primitive run with the fixed iteration ceiling
SeriesMax = 250 reports an explicit convergence failure exactly when the
accuracy test fails at every iterate it can reach within the ceiling, and
any value it does return was produced at an iterate, reached within the
ceiling, at which the accuracy test passed — there are no silent returns of
values outside the requested accuracy. -/
theorem iteratePrimitive_no_silent_return {σ : Type} (step : σ → σ)
    (acc : σ → Bool) (value : σ → ℝ) (s : σ) :
    (iteratePrimitive step acc value SeriesMax s =
        Except.error MNError.convergenceFailure ↔
      ∀ k, k < SeriesMax → acc (step^[k] s) = false) ∧
    ∀ v, iteratePrimitive step acc value SeriesMax s = Except.ok v →
      ∃ k, k < SeriesMax ∧ acc (step^[k] s) = true ∧ v = value (step^[k] s) :=
  iteratePrimitive_spec step acc value SeriesMax s

/-- C6 witness: a concrete primitive whose accuracy test passes at the
starting state returns its value, and the returned value was produced at an
iterate within the ceiling at which the test passed. -/
theorem iteratePrimitive_no_silent_return_witness :
    ∃ k, k < SeriesMax ∧ (fun m : ℕ => decide (3 ≤ m)) (Nat.succ^[k] 5) = true ∧
      ((5 : ℕ) : ℝ) = (fun m : ℕ => ((m : ℕ) : ℝ)) (Nat.succ^[k] 5) :=
  (iteratePrimitive_no_silent_return Nat.succ (fun m : ℕ => decide (3 ≤ m))
      (fun m : ℕ => ((m : ℕ) : ℝ)) 5).2 ((5 : ℕ) : ℝ) rfl

/-- C1 counterexample: the claim states that the computed solution pair
satisfies F·G′ - G·F′ = 1 within the configured accuracy.  At the concrete
continued-fraction data f = 0, p = 0, q = 1 with positive sign — the exact
values CF1 and CF2 take at (L, η, ρ) = (0, 0, π/2), where F = sin and
G = cos — the Steed solve returns the pair (1, 0, 0, -1), whose Wronskian
is -1, which differs from 1 by 2, more than every admissible accuracy
(accuracies are below 1). -/
theorem Coulomb_Steed_wronskian_ne_one :
    Wronskian (Coulomb_Steed_solve 0 0 1 1) = -1 ∧ (-1 : ℝ) ≠ 1 ∧
      (1 : ℝ) < |(-1 : ℝ) - 1| := by
  refine ⟨?_, by norm_num, by norm_num⟩
  simp [Wronskian, Coulomb_Steed_solve, FirstSolutionValue,
    FirstSolutionDerivative, SecondSolutionValue, SecondSolutionDerivative,
    Real.sqrt_one]

/-- C1 (amended): for every continued-fraction datum (f, p, q) with q > 0
(as CF2 produces for a genuine solution pair) and unit sign, the solution
pair computed by the Steed solve satisfies the Wronskian identity with
value -1 under the Wronskian convention of the code,
F·G′ - G·F′ = -1 (equivalently G·F′ - F·G′ = 1), exactly — and therefore
within every configured relative accuracy. -/
theorem Coulomb_Steed_wronskian (f p q s : ℝ) (hq : 0 < q)
    (hs : s = 1 ∨ s = -1) :
    Wronskian (Coulomb_Steed_solve f p q s) = -1 := by
  have hq' : q ≠ 0 := hq.ne'
  have hXpos : 0 < ((f - p) / q) ^ 2 * q + q := by positivity
  have hs2 : s ^ 2 = 1 := by
    rcases hs with h | h <;> rw [h] <;> norm_num
  have hsq : Real.sqrt (((f - p) / q) ^ 2 * q + q) ^ 2 =
      ((f - p) / q) ^ 2 * q + q := Real.sq_sqrt hXpos.le
  have hsne : Real.sqrt (((f - p) / q) ^ 2 * q + q) ≠ 0 :=
    (Real.sqrt_pos.mpr hXpos).ne'
  have hXne : ((f - p) / q) ^ 2 * q + q ≠ 0 := hXpos.ne'
  simp only [Wronskian, Coulomb_Steed_solve, FirstSolutionValue,
    FirstSolutionDerivative, SecondSolutionValue, SecondSolutionDerivative]
  have expand :
      s / Real.sqrt (((f - p) / q) ^ 2 * q + q) *
        ((p * ((f - p) / q) - q) *
          (s / Real.sqrt (((f - p) / q) ^ 2 * q + q))) -
      (f - p) / q * (s / Real.sqrt (((f - p) / q) ^ 2 * q + q)) *
        (f * (s / Real.sqrt (((f - p) / q) ^ 2 * q + q))) =
      (s ^ 2 / Real.sqrt (((f - p) / q) ^ 2 * q + q) ^ 2) *
        (p * ((f - p) / q) - q - ((f - p) / q) * f) := by
    ring
  rw [expand, hs2, hsq]
  have hfactor : p * ((f - p) / q) - q - ((f - p) / q) * f =
      -(((f - p) / q) ^ 2 * q + q) := by
    field_simp
    ring
  rw [hfactor]
  field_simp
  ring

/-- C1 witness: the amended Wronskian identity evaluated through the
theorem at the concrete datum f = 1, p = 0, q = 2 with positive sign. -/
theorem Coulomb_Steed_wronskian_witness :
    (0 : ℝ) < 2 ∧ ((1 : ℝ) = 1 ∨ (1 : ℝ) = -1) ∧
      Wronskian (Coulomb_Steed_solve 1 0 2 1) = -1 :=
  ⟨by norm_num, Or.inl rfl,
   Coulomb_Steed_wronskian 1 0 2 1 (by norm_num) (Or.inl rfl)⟩

theorem CoulombF_coeff_odd (m : ℕ) : CoulombF_SeriesCoeff 0 0 (2 * m + 1) = 0 := by
  induction m with
  | zero => simp [CoulombF_SeriesCoeff]
  | succ m ih =>
      rw [show 2 * (m + 1) + 1 = (2 * m + 1) + 2 by ring]
      simp only [CoulombF_SeriesCoeff]
      rw [ih]
      simp

theorem CoulombF_coeff_even (m : ℕ) :
    CoulombF_SeriesCoeff 0 0 (2 * m) =
      (-1) ^ m / (Nat.factorial (2 * m + 1) : ℝ) := by
  induction m with
  | zero => simp [CoulombF_SeriesCoeff]
  | succ m ih =>
      rw [show 2 * (m + 1) = 2 * m + 2 by ring]
      simp only [CoulombF_SeriesCoeff]
      rw [CoulombF_coeff_odd m, ih]
      have hfac : (Nat.factorial (2 * m + 3) : ℝ) =
          ((2 * m + 3 : ℕ) : ℝ) * (((2 * m + 2 : ℕ) : ℝ) *
            (Nat.factorial (2 * m + 1) : ℝ)) := by
        rw [show (2 * m + 3 : ℕ) = (2 * m + 2) + 1 from rfl, Nat.factorial_succ,
          show (2 * m + 2 : ℕ) = (2 * m + 1) + 1 from rfl, Nat.factorial_succ]
        push_cast
        ring
      rw [show (2 * m + 2 + 1 : ℕ) = 2 * m + 3 from rfl, hfac]
      have hf1 : (Nat.factorial (2 * m + 1) : ℝ) ≠ 0 :=
        Nat.cast_ne_zero.mpr (Nat.factorial_ne_zero _)
      push_cast
      have h2 : 2 * (m : ℝ) + 2 ≠ 0 := by positivity
      have h3 : 2 * (m : ℝ) + 3 ≠ 0 := by positivity
      field_simp
      ring

theorem CoulombG_coeff_odd (m : ℕ) :
    Coulomb_Zero_SeriesCoeffG 0 (2 * m + 1) = 0 := by
  induction m with
  | zero => simp [Coulomb_Zero_SeriesCoeffG]
  | succ m ih =>
      rw [show 2 * (m + 1) + 1 = (2 * m + 1) + 2 by ring]
      simp only [Coulomb_Zero_SeriesCoeffG]
      rw [ih]
      simp

theorem CoulombG_coeff_even (m : ℕ) :
    Coulomb_Zero_SeriesCoeffG 0 (2 * m) =
      (-1) ^ m / (Nat.factorial (2 * m) : ℝ) := by
  induction m with
  | zero => simp [Coulomb_Zero_SeriesCoeffG]
  | succ m ih =>
      rw [show 2 * (m + 1) = 2 * m + 2 by ring]
      simp only [Coulomb_Zero_SeriesCoeffG]
      rw [CoulombG_coeff_odd m, ih]
      have hfac : (Nat.factorial (2 * m + 2) : ℝ) =
          ((2 * m + 2 : ℕ) : ℝ) * (((2 * m + 1 : ℕ) : ℝ) *
            (Nat.factorial (2 * m) : ℝ)) := by
        rw [show (2 * m + 2 : ℕ) = (2 * m + 1) + 1 from rfl, Nat.factorial_succ,
          Nat.factorial_succ]
        push_cast
        ring
      rw [hfac]
      have hf1 : (Nat.factorial (2 * m) : ℝ) ≠ 0 :=
        Nat.cast_ne_zero.mpr (Nat.factorial_ne_zero _)
      push_cast
      have h2 : 2 * (m : ℝ) + 2 ≠ 0 := by positivity
      have h3 : 2 * (m : ℝ) + 1 ≠ 0 := by positivity
      field_simp
      ring

theorem CoulombF_coeff_norm_le (x : ℝ) (k : ℕ) :
    ‖CoulombF_SeriesCoeff 0 0 k * x ^ k‖ ≤ |x| ^ k / (Nat.factorial k : ℝ) := by
  rcases Nat.even_or_odd k with hk | hk
  · obtain ⟨m, hm⟩ := hk
    have hk2 : k = 2 * m := by omega
    subst hk2
    rw [CoulombF_coeff_even]
    have h1 : ‖(-1 : ℝ) ^ m / (Nat.factorial (2 * m + 1) : ℝ) * x ^ (2 * m)‖ =
        |x| ^ (2 * m) / (Nat.factorial (2 * m + 1) : ℝ) := by
      have hfabs : |(Nat.factorial (2 * m + 1) : ℝ)| =
          (Nat.factorial (2 * m + 1) : ℝ) := abs_of_nonneg (by positivity)
      rw [Real.norm_eq_abs, abs_mul, abs_div, abs_pow, abs_pow, abs_neg,
        abs_one, one_pow, hfabs]
      ring
    rw [h1]
    gcongr
    omega
  · obtain ⟨m, hm⟩ := hk
    subst hm
    rw [CoulombF_coeff_odd]
    rw [zero_mul, norm_zero]
    positivity

theorem CoulombF_summable (x : ℝ) :
    Summable (fun k : ℕ => CoulombF_SeriesCoeff 0 0 k * x ^ k) :=
  Summable.of_norm_bounded _ (Real.summable_pow_div_factorial |x|)
    (CoulombF_coeff_norm_le x)

theorem CoulombF_hasSum_sin (x : ℝ) :
    HasSum (fun k : ℕ => x * (CoulombF_SeriesCoeff 0 0 k * x ^ k))
      (Real.sin x) := by
  have he : HasSum
      (fun m : ℕ => x * (CoulombF_SeriesCoeff 0 0 (2 * m) * x ^ (2 * m)))
      (Real.sin x) := by
    have hfun :
        (fun m : ℕ => x * (CoulombF_SeriesCoeff 0 0 (2 * m) * x ^ (2 * m))) =
        fun m : ℕ => (-1) ^ m * x ^ (2 * m + 1) /
          ((Nat.factorial (2 * m + 1) : ℕ) : ℝ) := by
      funext m
      rw [CoulombF_coeff_even, pow_succ]
      ring
    rw [hfun]
    exact Real.hasSum_sin x
  have ho : HasSum
      (fun m : ℕ => x * (CoulombF_SeriesCoeff 0 0 (2 * m + 1) * x ^ (2 * m + 1)))
      0 := by
    have hfun :
        (fun m : ℕ =>
          x * (CoulombF_SeriesCoeff 0 0 (2 * m + 1) * x ^ (2 * m + 1))) =
        fun _ : ℕ => (0 : ℝ) := by
      funext m
      rw [CoulombF_coeff_odd]
      ring
    rw [hfun]
    exact hasSum_zero
  have key : HasSum (fun k : ℕ => x * (CoulombF_SeriesCoeff 0 0 k * x ^ k))
      (Real.sin x + 0) := by
    refine HasSum.even_add_odd ?_ ?_
    · exact he
    · exact ho
  simpa using key

theorem CoulombF_tsum_sin (x : ℝ) :
    x * tsum (fun k : ℕ => CoulombF_SeriesCoeff 0 0 k * x ^ k) = Real.sin x :=
  ((CoulombF_summable x).hasSum.mul_left x).unique (CoulombF_hasSum_sin x)

theorem CoulombG_hasSum_cos (x : ℝ) :
    HasSum (fun n : ℕ => Coulomb_Zero_SeriesCoeffG 0 n * x ^ n)
      (Real.cos x) := by
  have he : HasSum
      (fun m : ℕ => Coulomb_Zero_SeriesCoeffG 0 (2 * m) * x ^ (2 * m))
      (Real.cos x) := by
    have hfun :
        (fun m : ℕ => Coulomb_Zero_SeriesCoeffG 0 (2 * m) * x ^ (2 * m)) =
        fun m : ℕ => (-1) ^ m * x ^ (2 * m) /
          ((Nat.factorial (2 * m) : ℕ) : ℝ) := by
      funext m
      rw [CoulombG_coeff_even]
      ring
    rw [hfun]
    exact Real.hasSum_cos x
  have ho : HasSum
      (fun m : ℕ => Coulomb_Zero_SeriesCoeffG 0 (2 * m + 1) * x ^ (2 * m + 1))
      0 := by
    have hfun :
        (fun m : ℕ =>
          Coulomb_Zero_SeriesCoeffG 0 (2 * m + 1) * x ^ (2 * m + 1)) =
        fun _ : ℕ => (0 : ℝ) := by
      funext m
      rw [CoulombG_coeff_odd]
      ring
    rw [hfun]
    exact hasSum_zero
  have key : HasSum (fun n : ℕ => Coulomb_Zero_SeriesCoeffG 0 n * x ^ n)
      (Real.cos x + 0) := by
    refine HasSum.even_add_odd ?_ ?_
    · exact he
    · exact ho
  simpa using key

theorem CoulombG_tsum_cos (x : ℝ) :
    tsum (fun n : ℕ => Coulomb_Zero_SeriesCoeffG 0 n * x ^ n) = Real.cos x :=
  (CoulombG_hasSum_cos x).tsum_eq

theorem CoulombFactor_zero_zero : CoulombFactor 0 0 = 1 := by
  unfold CoulombFactor
  norm_num

/-- C3: for every x ≥ 0, CoulombF(0, 0, x) returns sin(x) and
CoulombG(0, 0, x) returns cos(x) — exactly, in the exact-arithmetic
idealization, hence in particular within the configured accuracy. -/
theorem CoulombF_CoulombG_sin_cos (x : ℝ) (hx : 0 ≤ x) :
    CoulombF 0 0 x = Except.ok (Real.sin x) ∧
    CoulombG 0 0 x = Except.ok (Real.cos x) := by
  have hcond : ¬ ((0 : ℤ) < 0 ∨ x < 0) := by
    push_neg
    exact ⟨le_refl 0, hx⟩
  constructor
  · unfold CoulombF coulombDispatch
    rw [if_neg hcond]
    congr 1
    show CoulombF_Series 0 0 x = Real.sin x
    unfold CoulombF_Series
    rw [CoulombFactor_zero_zero, one_mul, pow_one]
    exact CoulombF_tsum_sin x
  · unfold CoulombG coulombDispatch
    rw [if_neg hcond]
    congr 1
    show CoulombG_val 0 0 x = Real.cos x
    unfold CoulombG_val
    show (Coulomb_Recurse_Upward 0 x 0).1 = Real.cos x
    rw [show Coulomb_Recurse_Upward 0 x 0 =
      (Coulomb_Zero_Series_G 0 x, Coulomb_Zero_Series_GP 0 x) from rfl]
    show Coulomb_Zero_Series_G 0 x = Real.cos x
    unfold Coulomb_Zero_Series_G
    exact CoulombG_tsum_cos x

/-- C3 witness: the special case evaluated through the theorem at x = 0. -/
theorem CoulombF_CoulombG_sin_cos_witness :
    (0 : ℝ) ≤ 0 ∧
    (CoulombF 0 0 0 = Except.ok (Real.sin 0) ∧
      CoulombG 0 0 0 = Except.ok (Real.cos 0)) :=
  ⟨le_refl 0, CoulombF_CoulombG_sin_cos 0 (le_refl 0)⟩
